import Mathlib

/-!
# Verification of the examen-backend extraction / exam-generation pipelines

Shallow embedding of the question-generation service (`test_backend.py`,
the concatenated `ai_service.py` drafts) and of
`DocumentProcessor.procesar_archivo` (`document_processor.py`).

Conventions of the embedding:
* Python `str` values are modelled as `String` (or `List Char` where the
  code works with indices); `str.lower` is modelled on the ASCII range,
  which covers every string the pipeline manipulates (letters a–d, labels).
* Python `None`-able values are `Option`; a raised exception is the
  `.error` branch of an `Except`; a function that cannot raise is total.
* External effects (the Gemini HTTP call, `json.loads`, `random.shuffle`,
  the PDF/OCR libraries, the filesystem) enter as explicit oracle
  parameters; everything else is translated from the source line by line.
-/

namespace ExamenBackend

/-! ## Python string primitives -/

/-- The characters `str.strip()` removes (Python whitespace). -/
def pyWhitespace (c : Char) : Bool :=
  c == ' ' || c == '\t' || c == '\n' || c == '\r' || c == '\x0b' || c == '\x0c'

/-- `str.strip()` on a character list. -/
def pyStripL (l : List Char) : List Char :=
  ((l.dropWhile pyWhitespace).reverse.dropWhile pyWhitespace).reverse

/-- `str.strip()` on strings. -/
def pyStrip (s : String) : String := String.mk (pyStripL s.data)

/-- `str.lower()` (ASCII range, sufficient for the pipeline's data). -/
def pyLower (s : String) : String := String.mk (s.data.map Char.toLower)

/-- Fuel-driven worker for `replaceAll`: deletes the left-to-right
non-overlapping occurrences of `pat`, exactly as Python's
`str.replace(pat, "")` does; `fuel = length of the input` always
suffices because every step consumes at least one character. -/
def replaceAllFuel (pat : List Char) : Nat → List Char → List Char
  | 0, l => l
  | _ + 1, [] => []
  | fuel + 1, c :: rest =>
    if pat ≠ [] ∧ pat.isPrefixOf (c :: rest) then
      replaceAllFuel pat fuel (List.drop pat.length (c :: rest))
    else
      c :: replaceAllFuel pat fuel rest

/-- Python `text.replace(pat, "")`. -/
def replaceAll (pat l : List Char) : List Char := replaceAllFuel pat l.length l

/-- Python `text.find(c)` for a single character (`none` = `-1`). -/
def pyFind (p : Char → Bool) : List Char → Option Nat
  | [] => none
  | c :: rest => if p c then some 0 else (pyFind p rest).map (· + 1)

/-- Python `text.rfind(c)` for a single character (`none` = `-1`). -/
def pyRFind (p : Char → Bool) : List Char → Option Nat
  | [] => none
  | c :: rest =>
    match pyRFind p rest with
    | some i => some (i + 1)
    | none => if p c then some 0 else none

/-- Python `s.split(")")[0]`: the segment before the first `')'`
(the whole string when there is none). -/
def pySplitHead (s : String) : String := String.mk (s.data.takeWhile (· ≠ ')'))

/-- Python truthiness filter for an optional string
(`None` and `""` are falsy). -/
def truthyStr : Option String → Option String
  | some s => if s = "" then none else some s
  | none => none

/-- Python truthiness filter for an optional list (`None` and `[]` falsy). -/
def truthyList : Option (List String) → Option (List String)
  | some l => if l = [] then none else some l
  | none => none

/-! ## `ai_service` draft 2 (`test_backend.py` lines 267–503) -/

/-- The `"```json"` fence marker. -/
def fenceJson : List Char := "```json".data

/-- The `"```"` fence marker. -/
def fence : List Char := "```".data

/-- The markdown-marker removal prefix of `extract_clean_json`
(lines 342): `text.replace("```json", "").replace("```", "")`. -/
def markersRemoved (text : List Char) : List Char :=
  replaceAll fence (replaceAll fenceJson text)

/-- `extract_clean_json` (`test_backend.py` 337–352): strip markdown
fences, strip whitespace, slice from the first `'['` to the last `']'`
inclusive, `"[]"` when either is absent. -/
def extract_clean_json (text : List Char) : List Char :=
  if text = [] then "[]".data
  else
    let t := pyStripL (markersRemoved text)
    match pyFind (· == '[') t, pyRFind (· == ']') t with
    | some s, some e => (t.drop s).take (e + 1 - s)
    | _, _ => "[]".data

/-- `fix_json` (`test_backend.py` 358–371): drop characters outside the
basic multilingual plane, then append `']'`s while `']'`-count is short
of `'['`-count. -/
def fix_json (json_text : List Char) : List Char :=
  let t := json_text.filter (fun c => c.toNat < 0x10000)
  let opens := t.count '['
  let closes := t.count ']'
  if closes < opens then t ++ List.replicate (opens - closes) ']' else t

/-- A raw question record as `json.loads` may deliver it: each of the six
recognised keys is present with a value or absent. -/
structure RawQuestion where
  texto : Option String
  pregunta : Option String
  alternativas : Option (List String)
  opciones : Option (List String)
  correcta : Option String
  respuesta_correcta : Option String
deriving DecidableEq

/-- `raw.get("texto") or raw.get("pregunta") or ""`. -/
def resolveTexto (raw : RawQuestion) : String :=
  ((truthyStr raw.texto).orElse (fun _ => truthyStr raw.pregunta)).getD ""

/-- `raw.get("alternativas") or raw.get("opciones") or []`. -/
def resolveAlternativas (raw : RawQuestion) : List String :=
  ((truthyList raw.alternativas).orElse (fun _ => truthyList raw.opciones)).getD []

/-- `raw.get("correcta") or raw.get("respuesta_correcta") or ""`. -/
def resolveCorrecta (raw : RawQuestion) : String :=
  ((truthyStr raw.correcta).orElse (fun _ => truthyStr raw.respuesta_correcta)).getD ""

/-- The shape `normalize_question` returns. -/
structure NormQuestion where
  texto : String
  alternativas : List String
  correcta : String
deriving DecidableEq

/-- `normalize_question` (`test_backend.py` 377–392). -/
def normalize_question (raw : RawQuestion) : Option NormQuestion :=
  let texto := resolveTexto raw
  let alternativas := resolveAlternativas raw
  let correcta := resolveCorrecta raw
  if texto = "" ∨ alternativas = [] ∨ correcta = "" then none
  else some ⟨pyStrip texto, alternativas, pyLower correcta⟩

/-- The shape `shuffle_alternatives` returns: `correcta` may have been
reassigned to Python `None`. -/
structure ShuffledQuestion where
  texto : String
  alternativas : List String
  correcta : Option String
deriving DecidableEq

/-- `shuffle_alternatives` (`test_backend.py` 398–420).  `random.shuffle`
is an external effect, so the permuted list `shuffled` that it leaves in
`opciones` is a parameter; the rest is the source's logic: find the first
option whose lower-cased text starts with `correcta`, then scan the
shuffled list for that exact text (no break: the last match wins) and
take its pre-`')'` token, lower-cased, as the new `correcta`. -/
def shuffle_alternatives (q : NormQuestion) (shuffled : List String) :
    ShuffledQuestion :=
  let texto_correcto : Option String :=
    q.alternativas.find? (fun opt => q.correcta.data.isPrefixOf (pyLower opt).data)
  let nueva_correcta : Option String :=
    shuffled.foldl
      (fun acc opt =>
        if some opt = texto_correcto then some (pyLower (pySplitHead opt)) else acc)
      none
  ⟨q.texto, shuffled, nueva_correcta⟩

/-- `generar_preguntas_por_bloque` (`test_backend.py` 460–483), with its
three external effects as oracles: `geminiResponse` is what `call_gemini`
returned, `jsonLoads` is `json.loads` restricted to arrays of question
records (`none` = parse error), and `shuffleOf i l` is the permutation
`random.shuffle` produced for the `i`-th parsed question. -/
def generar_preguntas_por_bloque (geminiResponse : Option String)
    (jsonLoads : String → Option (List RawQuestion))
    (shuffleOf : Nat → List String → List String) : List ShuffledQuestion :=
  match geminiResponse with
  | none => []
  | some raw =>
    if raw = "" then []
    else
      let clean := extract_clean_json raw.data
      let fixed := fix_json clean
      match jsonLoads (String.mk fixed) with
      | none => []
      | some arr =>
        arr.enum.filterMap (fun iq =>
          (normalize_question iq.2).map (fun qn =>
            shuffle_alternatives qn (shuffleOf iq.1 qn.alternativas)))

/-! ## `call_gemini` (`test_backend.py` 298–331) -/

/-- Outcome of one `requests.post` + `r.json()` round trip: either the
transport raised, or a response arrived with a status code and the text
the fixed path `data["candidates"][0]["content"]["parts"][0]["text"]`
yields (`none` when the envelope is malformed). -/
inductive GeminiAttempt where
  | transportError (msg : String)
  | response (status : Nat) (extracted : Option String)
deriving DecidableEq

/-- The text one loop iteration of `call_gemini` would return: requires
status 200, a well-formed envelope and a non-empty text (`if text:`). -/
def attemptText : GeminiAttempt → Option String
  | .transportError _ => none
  | .response status extracted =>
    if status = 200 then
      match extracted with
      | some t => if t ≠ "" then some t else none
      | none => none
    else none

/-- The `for intento in range(retries)` loop of `call_gemini`. -/
def callLoop (attempts : Nat → GeminiAttempt) : Nat → Nat → Option String
  | _, 0 => none
  | i, fuel + 1 =>
    match attemptText (attempts i) with
    | some t => some t
    | none => callLoop attempts (i + 1) fuel

/-- `call_gemini` (`test_backend.py` 298–331): raises when
`GEMINI_API_KEY` is falsy (unset or empty), otherwise runs up to
`retries` attempts (the Python default is `retries = 2`) and returns the
first successful text, or `None` when every attempt failed. -/
def call_gemini (apiKey : Option String) (attempts : Nat → GeminiAttempt)
    (retries : Nat) : Except String (Option String) :=
  if truthyStr apiKey = none then .error "GEMINI_API_KEY no configurada"
  else .ok (callLoop attempts 0 retries)

/-! ## The spec's normalized-Question shape (for stating the claims) -/

/-- One of the labels `"a) "` … `"d) "` starts the alternative. -/
def hasLetterLabel (a : String) : Bool :=
  ["a) ", "b) ", "c) ", "d) "].any (fun p => p.data.isPrefixOf a.data)

/-- `correcta` is a letter of `{a,b,c,d}` (and in particular not `None`). -/
def correctaOk : Option String → Bool
  | some c => c == "a" || c == "b" || c == "c" || c == "d"
  | none => false

/-- Modelled from the spec: the normalized `Question` shape of the data
model (§3) — non-empty `texto`, exactly 4 letter-labelled alternatives,
`correcta` a single lowercase letter in `{a,b,c,d}`.  Used only to state
the claims; the code never checks it. -/
def NormalizedShape (q : ShuffledQuestion) : Prop :=
  q.texto ≠ "" ∧ q.alternativas.length = 4 ∧
    (∀ a ∈ q.alternativas, hasLetterLabel a = true) ∧ correctaOk q.correcta = true

instance (q : ShuffledQuestion) : Decidable (NormalizedShape q) := by
  unfold NormalizedShape; infer_instance

/-! ## `DocumentProcessor.procesar_archivo` (`document_processor.py` 41–213)

The processor's external collaborators — `PDFConverter.convertir_a_pdf`,
`os.path.exists`, the PDF libraries behind `_procesar_pdf_completo`, the
OCR behind `_procesar_imagen`, the direct txt/csv readers, and
`_intentar_extraccion_directa` (which traps its own exceptions and only
returns an optional text plus appended warnings) — are collected in a
`ProcEnv` of call outcomes.  Header sniffing `_detectar_extension_por_contenido`
never raises (it traps everything), so it is a plain `Option String`. -/

/-- The dictionary `procesar_archivo` returns: keys `texto`, `caracteres`,
`paginas`, `method`, `warnings`. -/
structure ProcResult where
  texto : String
  caracteres : Nat
  paginas : Nat
  method : String
  warnings : List String
deriving DecidableEq

/-- What a successful `_procesar_pdf_completo` call yields: the text, the
page count and the warnings it appended (library-fallback notes). -/
structure PdfData where
  texto : String
  paginas : Nat
  extraWarnings : List String
deriving DecidableEq

/-- Outcomes of the processor's external calls. -/
structure ProcEnv where
  detect : Option String
  convertir : Except String (Option String)
  pathExists : String → Bool
  pdfCompleto : String → Except String PdfData
  imageOcr : Except String String
  directRead : Except String String
  extractDirect : Option String × List String

/-- The keys of `self.formatos_imagen`. -/
def formatosImagen : List String :=
  ["jpg", "jpeg", "png", "gif", "bmp", "tiff", "tif", "heic", "heif", "webp"]

/-- The keys of `self.formatos_directos`. -/
def formatosDirectos : List String := ["pdf", "txt", "csv"]

/-- The dictionary `_procesar_pdf_completo` returns on success
(`caracteres = len(texto)`, method `"direct_pdf"`, warnings extended). -/
def mkPdfResult (w : List String) (d : PdfData) : ProcResult :=
  { texto := d.texto, caracteres := d.texto.length, paginas := d.paginas,
    method := "direct_pdf", warnings := w ++ d.extraWarnings }

/-- The image branch (`document_processor.py` 66–106).  The inner `try`
around conversion+PDF-extraction falls through to direct OCR on any
exception or falsy path, and the OCR `try` converts its own failure into
the `"image_failed"` result, so this branch never raises. -/
def procesarImagen (env : ProcEnv) (extL : String) (w : List String) : ProcResult :=
  let converted : Option ProcResult :=
    match env.convertir with
    | .error _ => none
    | .ok none => none
    | .ok (some p) =>
      if env.pathExists p then
        match env.pdfCompleto p with
        | .error _ => none
        | .ok d =>
          let r := mkPdfResult w d
          some { r with method := "image_to_pdf",
                        warnings := r.warnings ++ ["Imagen " ++ extL ++ " convertida a PDF"] }
      else none
  match converted with
  | some r => r
  | none =>
    match env.imageOcr with
    | .ok t =>
      { texto := t, caracteres := t.length, paginas := 1,
        method := "image_ocr", warnings := w }
    | .error e2 =>
      { texto := "", caracteres := 0, paginas := 1, method := "image_failed",
        warnings := w ++ ["No se pudo procesar imagen: " ++ e2] }

/-- Last resort of the conversion branch (`document_processor.py`
177–193): process the original file as a generic PDF; if that also
raises, return the empty `"failed"` structure (caught locally). -/
def ultimoRecurso (env : ProcEnv) (fp extL : String) (w2 : List String) : ProcResult :=
  match env.pdfCompleto fp with
  | .ok d =>
    let r := mkPdfResult w2 d
    { r with method := "fallback_pdf",
             warnings := r.warnings ++ ["Archivo " ++ extL ++ " procesado como PDF genérico"] }
  | .error e2 =>
    { texto := "", caracteres := 0, paginas := 0, method := "failed",
      warnings := w2 ++ ["No se pudo procesar archivo " ++ extL ++ ": " ++ e2] }

/-- The else-arm of the conversion branch (`document_processor.py`
163–193): warn, try `_intentar_extraccion_directa`, use its text if
truthy, otherwise fall to `ultimoRecurso`. -/
def sinConversion (env : ProcEnv) (fp extL : String) (w : List String) : ProcResult :=
  let w2 := (w ++ ["No se pudo convertir " ++ extL ++ " a PDF, intentando extracción directa"])
              ++ env.extractDirect.2
  match env.extractDirect.1 with
  | some t =>
    if t ≠ "" then
      { texto := t, caracteres := t.length, paginas := 1,
        method := "direct_" ++ extL, warnings := w2 }
    else ultimoRecurso env fp extL w2
  | none => ultimoRecurso env fp extL w2

/-- The body of the outer `try` of `procesar_archivo` (lines 64–193).
`.error (e, w)` is an exception `e` escaping to the outer handler with
the warnings list as mutated up to that point. -/
def tryBody (env : ProcEnv) (fp extL : String) (w : List String) :
    Except (String × List String) ProcResult :=
  if extL ∈ formatosImagen then .ok (procesarImagen env extL w)
  else if extL ∈ formatosDirectos then
    if extL = "pdf" then
      match env.pdfCompleto fp with
      | .ok d => .ok (mkPdfResult w d)
      | .error e => .error (e, w)
    else
      match env.directRead with
      | .ok t =>
        .ok { texto := t, caracteres := t.length, paginas := 1,
              method := extL, warnings := w }
      | .error eDirect =>
        match env.convertir with
        | .error e => .error (e, w)
        | .ok (some p) =>
          if env.pathExists p then
            match env.pdfCompleto p with
            | .ok d =>
              let r := mkPdfResult w d
              .ok { r with method := extL ++ "_to_pdf",
                           warnings := r.warnings
                             ++ ["Archivo " ++ extL ++ " convertido a PDF después de error"] }
            | .error e => .error (e, w)
          else .error (eDirect, w)
        | .ok none => .error (eDirect, w)
  else
    match env.convertir with
    | .error e => .error (e, w)
    | .ok (some p) =>
      if env.pathExists p then
        match env.pdfCompleto p with
        | .ok d =>
          let r := mkPdfResult w d
          .ok { r with method := "pdf_conversion",
                       warnings := r.warnings ++ ["Archivo " ++ extL ++ " convertido a PDF"] }
        | .error e => .error (e, w)
      else .ok (sinConversion env fp extL w)
    | .ok none => .ok (sinConversion env fp extL w)

/-- The outer `except Exception` handler of `procesar_archivo` (lines
195–213): pass successes through; on an escaped exception retry the file
as a generic PDF, degrading to the empty `"failed"` structure. -/
def outerHandler (env : ProcEnv) (fp : String) :
    Except (String × List String) ProcResult → ProcResult
  | .ok r => r
  | .error (e, w) =>
    match env.pdfCompleto fp with
    | .ok d =>
      let r := mkPdfResult w d
      { r with method := "fallback_pdf",
               warnings := r.warnings ++ ["Procesado como PDF después de error: " ++ e] }
    | .error e2 =>
      { texto := "", caracteres := 0, paginas := 0, method := "failed",
        warnings := w ++ ["Error procesando archivo: " ++ e,
                          "Fallback también falló: " ++ e2] }

/-- `procesar_archivo` (`document_processor.py` 41–213): normalise the
extension (sniffing headers when it is empty), run the dispatch, and
recover any escaped exception in `outerHandler` rather than raising. -/
def procesar_archivo (env : ProcEnv) (fp extension : String) : ProcResult :=
  let ext0 := pyStrip (pyLower extension)
  let det := env.detect.getD ""
  let extL := if ext0 = "" then (if det = "" then "pdf" else det) else ext0
  let w0 : List String :=
    if ext0 = "" then
      (if det = "" then ["No se pudo detectar extensión, intentando como PDF"]
       else ["Extensión detectada automáticamente: " ++ det])
    else []
  outerHandler env fp (tryBody env fp extL w0)

/-- Every extraction strategy of the processor fails: all PDF extraction
raises, OCR raises, the direct txt/csv reader raises, and
`_intentar_extraccion_directa` finds nothing. -/
def allStrategiesFail (env : ProcEnv) : Prop :=
  (∀ p, ∃ e, env.pdfCompleto p = .error e) ∧ (∃ e, env.imageOcr = .error e) ∧
    (∃ e, env.directRead = .error e) ∧ env.extractDirect.1 = none

/-- A warning reporting that the file could not be processed. -/
def failWarn (w : String) : Prop :=
  "No se pudo procesar".data.isPrefixOf w.data = true ∨
    "Error procesando archivo:".data.isPrefixOf w.data = true

/-- The shape of the result `procesar_archivo` produces when every
strategy has failed: empty text, method `"failed"`/`"image_failed"`, and
a warning reporting the failure. -/
def FailResult (r : ProcResult) : Prop :=
  r.texto = "" ∧ r.caracteres = 0 ∧
    (r.method = "failed" ∨ r.method = "image_failed") ∧ ∃ x ∈ r.warnings, failWarn x

/-- A concrete environment in which every external call fails. -/
def envAllFail : ProcEnv :=
  { detect := none, convertir := .error "conversion service down",
    pathExists := fun _ => false, pdfCompleto := fun _ => .error "no pdf library",
    imageOcr := .error "no ocr", directRead := .error "no reader",
    extractDirect := (none, []) }

/-! ## Concrete pipeline run: a well-formed LLM reply whose single
question has one alternative, whitespace question text and an
unfindable answer letter -/

/-- A syntactically valid JSON reply the model could send. -/
def cRaw : String :=
  "[\x7b\"texto\": \"   \", \"alternativas\": [\"x\"], \"correcta\": \"z\"\x7d]"

/-- What `json.loads` yields on `cRaw` (checked by hand against Python). -/
def cParsed : List RawQuestion := [⟨some "   ", none, some ["x"], none, some "z", none⟩]

/-- The `json.loads` oracle for the `cRaw` run. -/
def cParse : String → Option (List RawQuestion) :=
  fun s => if s = cRaw then some cParsed else none

/-- A `random.shuffle` that leaves the list unchanged (the identity is
one of the permutations it can produce). -/
def cShuf : Nat → List String → List String := fun _ l => l

/-- Some `'['` occurs strictly before some `']'` in `l`. -/
def hasOpenClose (l : List Char) : Prop := List.Sublist ('[' :: ']' :: []) l

/-- A bracket character. -/
def isBracket (c : Char) : Bool := c == '[' || c == ']'

/-! # Supporting lemmas -/

theorem pyFind_eq_none (p : Char → Bool) :
    ∀ (l : List Char), pyFind p l = none ↔ ∀ c ∈ l, p c = false
  | [] => by simp [pyFind]
  | c :: rest => by
    by_cases h : p c = true
    · simp [pyFind, h]
    · simp only [Bool.not_eq_true] at h
      simp [pyFind, h, pyFind_eq_none p rest]

theorem pyRFind_eq_none (p : Char → Bool) :
    ∀ (l : List Char), pyRFind p l = none ↔ ∀ c ∈ l, p c = false
  | [] => by simp [pyRFind]
  | c :: rest => by
    rw [List.forall_mem_cons, ← pyRFind_eq_none p rest]
    rcases hr : pyRFind p rest with _ | i
    · by_cases h : p c = true <;> simp [pyRFind, hr, h]
    · simp [pyRFind, hr]

theorem pyFind_lt_length (p : Char → Bool) :
    ∀ (l : List Char) (i : Nat), pyFind p l = some i → i < l.length
  | [], i => by simp [pyFind]
  | c :: rest, i => by
    by_cases h : p c = true
    · simp [pyFind, h]
      rintro rfl
      exact Nat.succ_pos _
    · simp only [Bool.not_eq_true] at h
      simp only [pyFind, h, Bool.false_eq_true, if_false, Option.map_eq_some',
        List.length_cons]
      rintro ⟨j, hj, rfl⟩
      exact Nat.succ_lt_succ (pyFind_lt_length p rest j hj)

theorem pyRFind_lt_length (p : Char → Bool) :
    ∀ (l : List Char) (i : Nat), pyRFind p l = some i → i < l.length
  | [], i => by simp [pyRFind]
  | c :: rest, i => by
    rcases hr : pyRFind p rest with _ | j
    · by_cases h : p c = true
      · simp [pyRFind, hr, h]
        rintro rfl
        exact Nat.succ_pos _
      · simp only [Bool.not_eq_true] at h
        simp [pyRFind, hr, h]
    · simp only [pyRFind, hr, Option.some.injEq, List.length_cons]
      rintro rfl
      exact Nat.succ_lt_succ (pyRFind_lt_length p rest j hr)

theorem pyFind_get (p : Char → Bool) :
    ∀ (l : List Char) (i : Nat), pyFind p l = some i →
      ∃ c, l.get? i = some c ∧ p c = true
  | [], i => by simp [pyFind]
  | c :: rest, i => by
    by_cases h : p c = true
    · simp [pyFind, h]
      rintro rfl
      exact ⟨c, by simp, h⟩
    · simp only [Bool.not_eq_true] at h
      simp only [pyFind, h, Bool.false_eq_true, if_false, Option.map_eq_some']
      rintro ⟨j, hj, rfl⟩
      simpa using pyFind_get p rest j hj

theorem pyRFind_get (p : Char → Bool) :
    ∀ (l : List Char) (i : Nat), pyRFind p l = some i →
      ∃ c, l.get? i = some c ∧ p c = true
  | [], i => by simp [pyRFind]
  | c :: rest, i => by
    rcases hr : pyRFind p rest with _ | j
    · by_cases h : p c = true
      · simp [pyRFind, hr, h]
        rintro rfl
        exact ⟨c, by simp, h⟩
      · simp only [Bool.not_eq_true] at h
        simp [pyRFind, hr, h]
    · simp only [pyRFind, hr, Option.some.injEq]
      rintro rfl
      simpa using pyRFind_get p rest j hr

theorem pyFind_append_left (p : Char → Bool) (l₁ l₂ : List Char)
    (h : ∀ c ∈ l₁, p c = false) :
    pyFind p (l₁ ++ l₂) = (pyFind p l₂).map (· + l₁.length) := by
  induction l₁ with
  | nil => rcases hf : pyFind p l₂ with _ | j <;> simp [hf]
  | cons c rest ih =>
    have hc : p c = false := h c (List.mem_cons_self c rest)
    have hih := ih (fun d hd => h d (List.mem_cons_of_mem _ hd))
    rcases hf : pyFind p l₂ with _ | j <;> rw [hf] at hih <;>
      simp only [Option.map_none', Option.map_some'] at hih <;>
      simp [pyFind, hc, hih, hf] <;> omega

theorem pyFind_append_right (p : Char → Bool) (l₁ l₂ : List Char)
    (h : ∀ c ∈ l₂, p c = false) :
    pyFind p (l₁ ++ l₂) = pyFind p l₁ := by
  induction l₁ with
  | nil => simpa [pyFind] using (pyFind_eq_none p l₂).mpr h
  | cons c rest ih => simp [pyFind, ih]

theorem pyRFind_append_right (p : Char → Bool) (l₁ l₂ : List Char)
    (h : ∀ c ∈ l₂, p c = false) :
    pyRFind p (l₁ ++ l₂) = pyRFind p l₁ := by
  induction l₁ with
  | nil => simpa [pyRFind] using (pyRFind_eq_none p l₂).mpr h
  | cons c rest ih => simp [pyRFind, ih]

theorem pyRFind_append_left (p : Char → Bool) (l₁ l₂ : List Char)
    (h : ∀ c ∈ l₁, p c = false) :
    pyRFind p (l₁ ++ l₂) = (pyRFind p l₂).map (· + l₁.length) := by
  induction l₁ with
  | nil => rcases hf : pyRFind p l₂ with _ | j <;> simp [hf]
  | cons c rest ih =>
    have hc : p c = false := h c (List.mem_cons_self c rest)
    have hih := ih (fun d hd => h d (List.mem_cons_of_mem _ hd))
    rcases hf : pyRFind p l₂ with _ | j <;> rw [hf] at hih <;>
      simp only [Option.map_none', Option.map_some'] at hih <;>
      simp [pyRFind, hih, hc, hf] <;> omega

/-! ### Whitespace stripping decomposes the list -/

theorem pyStripL_decomp (l : List Char) :
    ∃ w v, l = w ++ pyStripL l ++ v ∧ (∀ c ∈ w, pyWhitespace c = true) ∧
      (∀ c ∈ v, pyWhitespace c = true) := by
  refine ⟨l.takeWhile pyWhitespace,
    ((l.dropWhile pyWhitespace).reverse.takeWhile pyWhitespace).reverse, ?_, ?_, ?_⟩
  · conv_lhs => rw [← List.takeWhile_append_dropWhile (p := pyWhitespace) (l := l)]
    rw [List.append_assoc]
    congr 1
    conv_lhs => rw [← List.reverse_reverse (l.dropWhile pyWhitespace)]
    conv_lhs =>
      rw [← List.takeWhile_append_dropWhile
        (p := pyWhitespace) (l := (l.dropWhile pyWhitespace).reverse)]
    rw [List.reverse_append]
    rfl
  · exact fun c hc => List.mem_takeWhile_imp hc
  · exact fun c hc => List.mem_takeWhile_imp (List.mem_reverse.mp hc)

/-! ### `isPrefixOf` utilities -/

theorem isPrefixOf_ex :
    ∀ (pat l : List Char), pat.isPrefixOf l = true → ∃ t, l = pat ++ t
  | [], l, _ => ⟨l, rfl⟩
  | _ :: _, [], h => by simp [List.isPrefixOf] at h
  | p :: ps, c :: cs, h => by
    simp only [List.isPrefixOf, Bool.and_eq_true, beq_iff_eq] at h
    obtain ⟨t, ht⟩ := isPrefixOf_ex ps cs h.2
    exact ⟨t, by simp [h.1, ht]⟩

theorem isPrefixOf_self_append :
    ∀ (pat t : List Char), pat.isPrefixOf (pat ++ t) = true
  | [], t => by simp [List.isPrefixOf]
  | p :: ps, t => by
    simp only [List.cons_append, List.isPrefixOf, Bool.and_eq_true, beq_self_eq_true,
      true_and]
    exact isPrefixOf_self_append ps t

/-! ### Marker removal and stripping do not touch brackets -/

theorem filter_replaceAllFuel (p : Char → Bool) (pat : List Char)
    (hpat : ∀ c ∈ pat, p c = false) :
    ∀ (fuel : Nat) (l : List Char),
      (replaceAllFuel pat fuel l).filter p = l.filter p
  | 0, l => rfl
  | _ + 1, [] => rfl
  | fuel + 1, c :: rest => by
    by_cases h : pat ≠ [] ∧ pat.isPrefixOf (c :: rest) = true
    · rw [replaceAllFuel, if_pos h]
      obtain ⟨t, ht⟩ := isPrefixOf_ex pat (c :: rest) h.2
      have hnil : pat.filter p = [] :=
        List.filter_eq_nil_iff.mpr (fun a ha => by simp [hpat a ha])
      rw [filter_replaceAllFuel p pat hpat fuel, ht, List.drop_left,
        List.filter_append, hnil, List.nil_append]
    · rw [replaceAllFuel, if_neg h]
      simp only [List.filter_cons]
      rw [filter_replaceAllFuel p pat hpat fuel rest]

theorem filter_replaceAll (p : Char → Bool) (pat l : List Char)
    (hpat : ∀ c ∈ pat, p c = false) :
    (replaceAll pat l).filter p = l.filter p :=
  filter_replaceAllFuel p pat hpat l.length l

theorem filter_pyStripL (p : Char → Bool)
    (hws : ∀ c, pyWhitespace c = true → p c = false) (l : List Char) :
    (pyStripL l).filter p = l.filter p := by
  obtain ⟨w, v, hdec, hw, hv⟩ := pyStripL_decomp l
  have hwnil : w.filter p = [] :=
    List.filter_eq_nil_iff.mpr (fun a ha => by simp [hws a (hw a ha)])
  have hvnil : v.filter p = [] :=
    List.filter_eq_nil_iff.mpr (fun a ha => by simp [hws a (hv a ha)])
  conv_rhs => rw [hdec]
  rw [List.filter_append, List.filter_append, hwnil, hvnil,
    List.nil_append, List.append_nil]

theorem filter_markersRemoved (text : List Char) :
    (markersRemoved text).filter isBracket = text.filter isBracket := by
  unfold markersRemoved
  rw [filter_replaceAll _ _ _ (by decide), filter_replaceAll _ _ _ (by decide)]

/-! ### Bracket-order transfer through character deletions -/

theorem hasOpenClose_filter (l : List Char) :
    hasOpenClose l ↔ hasOpenClose (l.filter isBracket) := by
  constructor
  · intro h
    have := h.filter isBracket
    simpa [List.filter] using this
  · intro h
    exact h.trans (List.filter_sublist l)

theorem hasOpenClose_cons (c : Char) (l : List Char) :
    hasOpenClose (c :: l) ↔ (c = '[' ∧ ']' ∈ l) ∨ hasOpenClose l := by
  constructor
  · intro h
    cases h with
    | cons _ h' => exact Or.inr h'
    | cons₂ _ h' => exact Or.inl ⟨rfl, List.singleton_sublist.mp h'⟩
  · rintro (⟨rfl, hm⟩ | h)
    · exact List.Sublist.cons₂ _ (List.singleton_sublist.mpr hm)
    · exact List.Sublist.cons _ h

theorem mem_of_hasOpenClose {l : List Char} (h : hasOpenClose l) :
    '[' ∈ l ∧ ']' ∈ l := by
  induction l with
  | nil => exact absurd (List.sublist_nil.mp h) (by simp)
  | cons c rest ih =>
    rcases (hasOpenClose_cons c rest).mp h with ⟨rfl, hm⟩ | h'
    · exact ⟨List.mem_cons_self _ _, List.mem_cons_of_mem _ hm⟩
    · obtain ⟨h1, h2⟩ := ih h'
      exact ⟨List.mem_cons_of_mem _ h1, List.mem_cons_of_mem _ h2⟩

theorem mem_iff_pyFind_isSome (p : Char → Bool) (l : List Char) :
    (∃ c ∈ l, p c = true) ↔ (pyFind p l).isSome := by
  rcases hf : pyFind p l with _ | i
  · rw [pyFind_eq_none] at hf
    simp only [Option.isSome_none, Bool.false_eq_true, iff_false]
    rintro ⟨c, hc, hpc⟩
    rw [hf c hc] at hpc
    exact Bool.noConfusion hpc
  · simp only [Option.isSome_some, iff_true]
    obtain ⟨c, hget, hpc⟩ := pyFind_get p l i hf
    exact ⟨c, List.get?_mem hget, hpc⟩

theorem mem_iff_pyRFind_isSome (p : Char → Bool) (l : List Char) :
    (∃ c ∈ l, p c = true) ↔ (pyRFind p l).isSome := by
  rcases hf : pyRFind p l with _ | i
  · rw [pyRFind_eq_none] at hf
    simp only [Option.isSome_none, Bool.false_eq_true, iff_false]
    rintro ⟨c, hc, hpc⟩
    rw [hf c hc] at hpc
    exact Bool.noConfusion hpc
  · simp only [Option.isSome_some, iff_true]
    obtain ⟨c, hget, hpc⟩ := pyRFind_get p l i hf
    exact ⟨c, List.get?_mem hget, hpc⟩

/-- `hasOpenClose` is exactly "the first `'['` sits strictly before the
last `']'`". -/
theorem hasOpenClose_iff_indices :
    ∀ (l : List Char), hasOpenClose l ↔
      ∃ s e, pyFind (· == '[') l = some s ∧ pyRFind (· == ']') l = some e ∧ s < e := by
  intro l
  induction l with
  | nil =>
    simp only [pyFind, pyRFind]
    constructor
    · intro h
      exact absurd (List.sublist_nil.mp h) (by simp)
    · rintro ⟨s, e, h, -, -⟩
      exact Option.noConfusion h
  | cons c rest ih =>
    rw [hasOpenClose_cons]
    by_cases hc1 : c = '['
    · subst hc1
      have hfind0 : pyFind (· == '[') ('[' :: rest) = some 0 := by simp [pyFind]
      constructor
      · rintro (⟨-, hm⟩ | h)
        · have hsome : (pyRFind (· == ']') rest).isSome :=
            (mem_iff_pyRFind_isSome _ rest).mp ⟨']', hm, by decide⟩
          rcases hr : pyRFind (· == ']') rest with _ | i
          · rw [hr] at hsome
            exact absurd hsome (by simp)
          · refine ⟨0, i + 1, hfind0, ?_, Nat.succ_pos i⟩
            simp [pyRFind, hr]
        · obtain ⟨s, e, hs, he, hlt⟩ := ih.mp h
          refine ⟨0, e + 1, hfind0, ?_, Nat.succ_pos e⟩
          simp [pyRFind, he]
      · rintro ⟨s, e, hs, he, hlt⟩
        rcases hr : pyRFind (· == ']') rest with _ | i
        · have hnone : pyRFind (· == ']') ('[' :: rest) = none := by
            simp [pyRFind, hr]
          rw [hnone] at he
          exact absurd he (by simp)
        · have hsome : (pyRFind (· == ']') rest).isSome := by rw [hr]; rfl
          obtain ⟨d, hd, hpd⟩ := (mem_iff_pyRFind_isSome _ rest).mpr hsome
          have hd' : ']' ∈ rest := by
            have hde : d = ']' := by simpa using hpd
            rwa [hde] at hd
          exact Or.inl ⟨rfl, hd'⟩
    · have hfind : pyFind (· == '[') (c :: rest)
          = (pyFind (· == '[') rest).map (· + 1) := by
        simp [pyFind, hc1]
      by_cases hc2 : c = ']'
      · subst hc2
        constructor
        · rintro (⟨h, -⟩ | h)
          · exact absurd h (by decide)
          · obtain ⟨s, e, hs, he, hlt⟩ := ih.mp h
            refine ⟨s + 1, e + 1, ?_, ?_, by omega⟩
            · rw [hfind, hs]
              rfl
            · simp [pyRFind, he]
        · rintro ⟨s, e, hs, he, hlt⟩
          rw [hfind] at hs
          rcases hf : pyFind (· == '[') rest with _ | j
          · rw [hf] at hs
            exact absurd hs (by simp)
          · rw [hf] at hs
            simp only [Option.map_some', Option.some.injEq] at hs
            rcases hr : pyRFind (· == ']') rest with _ | i
            · have h0 : pyRFind (· == ']') (']' :: rest) = some 0 := by
                simp [pyRFind, hr]
              rw [h0] at he
              simp only [Option.some.injEq] at he
              exact absurd hlt (by omega)
            · have h1 : pyRFind (· == ']') (']' :: rest) = some (i + 1) := by
                simp [pyRFind, hr]
              rw [h1] at he
              simp only [Option.some.injEq] at he
              exact Or.inr (ih.mpr ⟨j, i, hf, hr, by omega⟩)
      · constructor
        · rintro (⟨h, -⟩ | h)
          · exact absurd h hc1
          · obtain ⟨s, e, hs, he, hlt⟩ := ih.mp h
            refine ⟨s + 1, e + 1, ?_, ?_, by omega⟩
            · rw [hfind, hs]
              rfl
            · simp [pyRFind, he]
        · rintro ⟨s, e, hs, he, hlt⟩
          rw [hfind] at hs
          rcases hf : pyFind (· == '[') rest with _ | j
          · rw [hf] at hs
            exact absurd hs (by simp)
          · rw [hf] at hs
            simp only [Option.map_some', Option.some.injEq] at hs
            rcases hr : pyRFind (· == ']') rest with _ | i
            · have h0 : pyRFind (· == ']') (c :: rest) = none := by
                simp [pyRFind, hr, hc2]
              rw [h0] at he
              exact absurd he (by simp)
            · have h1 : pyRFind (· == ']') (c :: rest) = some (i + 1) := by
                simp [pyRFind, hr]
              rw [h1] at he
              simp only [Option.some.injEq] at he
              exact Or.inr (ih.mpr ⟨j, i, hf, hr, by omega⟩)

/-! ### The relabelling fold of `shuffle_alternatives` -/

theorem foldl_letra_none (l : List String) :
    l.foldl
      (fun acc opt =>
        if some opt = (none : Option String) then some (pyLower (pySplitHead opt))
        else acc)
      none = none := by
  induction l with
  | nil => rfl
  | cons a l ih => simpa using ih

theorem foldl_letra_cases (l : List String) (tc : Option String) :
    ∀ (acc : Option String),
      (l.foldl
        (fun acc opt =>
          if some opt = tc then some (pyLower (pySplitHead opt)) else acc)
        acc = acc) ∨
      (∃ opt ∈ l,
        l.foldl
          (fun acc opt =>
            if some opt = tc then some (pyLower (pySplitHead opt)) else acc)
          acc = some (pyLower (pySplitHead opt))) := by
  induction l with
  | nil => intro acc; exact Or.inl rfl
  | cons a l ih =>
    intro acc
    by_cases h : some a = tc
    · rcases ih (some (pyLower (pySplitHead a))) with h1 | ⟨opt, hopt, h2⟩
      · refine Or.inr ⟨a, List.mem_cons_self a l, ?_⟩
        simpa [h] using h1
      · refine Or.inr ⟨opt, List.mem_cons_of_mem _ hopt, ?_⟩
        simpa [h] using h2
    · rcases ih acc with h1 | ⟨opt, hopt, h2⟩
      · refine Or.inl ?_
        simpa [h] using h1
      · refine Or.inr ⟨opt, List.mem_cons_of_mem _ hopt, ?_⟩
        simpa [h] using h2

/-! ### The retry loop of `call_gemini` -/

theorem callLoop_congr (f g : Nat → GeminiAttempt) :
    ∀ (n i : Nat), (∀ j, j < n → f (i + j) = g (i + j)) →
      callLoop f i n = callLoop g i n
  | 0, i, _ => rfl
  | n + 1, i, h => by
    have h0 : f i = g i := by simpa using h 0 (Nat.succ_pos n)
    rw [callLoop, callLoop, h0]
    rcases attemptText (g i) with _ | t
    · exact callLoop_congr f g n (i + 1) (fun j hj => by
        have := h (j + 1) (Nat.succ_lt_succ hj)
        simpa [Nat.add_assoc, Nat.add_comm 1 j] using this)
    · rfl

theorem callLoop_all_fail (f : Nat → GeminiAttempt) :
    ∀ (n i : Nat), (∀ j, j < n → attemptText (f (i + j)) = none) →
      callLoop f i n = none
  | 0, _, _ => rfl
  | n + 1, i, h => by
    have h0 : attemptText (f i) = none := by simpa using h 0 (Nat.succ_pos n)
    rw [callLoop, h0]
    exact callLoop_all_fail f n (i + 1) (fun j hj => by
      have := h (j + 1) (Nat.succ_lt_succ hj)
      simpa [Nat.add_assoc, Nat.add_comm 1 j] using this)

/-! ### `normalize_question` basics -/

theorem normalize_question_eq_none (raw : RawQuestion) :
    normalize_question raw = none ↔
      (resolveTexto raw = "" ∨ resolveAlternativas raw = [] ∨
        resolveCorrecta raw = "") := by
  unfold normalize_question
  by_cases h : resolveTexto raw = "" ∨ resolveAlternativas raw = [] ∨
      resolveCorrecta raw = ""
  · simp [h]
  · simp [h]

theorem normalize_question_some {raw : RawQuestion} {qn : NormQuestion}
    (h : normalize_question raw = some qn) :
    qn.texto = pyStrip (resolveTexto raw) ∧
      qn.alternativas = resolveAlternativas raw ∧
      qn.correcta = pyLower (resolveCorrecta raw) ∧
      resolveAlternativas raw ≠ [] := by
  unfold normalize_question at h
  by_cases hc : resolveTexto raw = "" ∨ resolveAlternativas raw = [] ∨
      resolveCorrecta raw = ""
  · rw [if_pos hc] at h
    exact Option.noConfusion h
  · rw [if_neg hc] at h
    have := Option.some.inj h
    push_neg at hc
    exact ⟨by rw [← this], by rw [← this], by rw [← this], hc.2.1⟩

/-! ### `procesar_archivo`: structural invariant and total-failure shape -/

theorem isPrefixOf_append_ext (pat l t : List Char) (h : pat.isPrefixOf l = true) :
    pat.isPrefixOf (l ++ t) = true := by
  obtain ⟨u, hu⟩ := isPrefixOf_ex pat l h
  rw [hu, List.append_assoc]
  exact isPrefixOf_self_append pat (u ++ t)

theorem failWarn_noSePudo (s e : String)
    (h : "No se pudo procesar".data.isPrefixOf s.data = true) :
    failWarn (s ++ e) := by
  left
  rw [String.data_append]
  exact isPrefixOf_append_ext _ _ _ h

theorem failWarn_archivo (extL e : String) :
    failWarn ("No se pudo procesar archivo " ++ extL ++ ": " ++ e) := by
  left
  rw [String.data_append, String.data_append, String.data_append,
    List.append_assoc, List.append_assoc]
  exact isPrefixOf_append_ext _ _ _ (by decide)

theorem failWarn_errorProcesando (e : String) :
    failWarn ("Error procesando archivo: " ++ e) := by
  right
  rw [String.data_append]
  exact isPrefixOf_append_ext _ _ _ (by decide)

theorem caracteres_procesarImagen (env : ProcEnv) (extL : String) (w : List String) :
    (procesarImagen env extL w).caracteres = (procesarImagen env extL w).texto.length := by
  unfold procesarImagen mkPdfResult
  repeat' split
  all_goals rfl

theorem caracteres_ultimoRecurso (env : ProcEnv) (fp extL : String) (w2 : List String) :
    (ultimoRecurso env fp extL w2).caracteres
      = (ultimoRecurso env fp extL w2).texto.length := by
  unfold ultimoRecurso mkPdfResult
  repeat' split
  all_goals rfl

theorem caracteres_sinConversion (env : ProcEnv) (fp extL : String) (w : List String) :
    (sinConversion env fp extL w).caracteres
      = (sinConversion env fp extL w).texto.length := by
  unfold sinConversion
  repeat' split
  all_goals first
    | rfl
    | apply caracteres_ultimoRecurso

theorem caracteres_tryBody {env : ProcEnv} {fp extL : String} {w : List String}
    {r : ProcResult} (h : tryBody env fp extL w = .ok r) :
    r.caracteres = r.texto.length := by
  unfold tryBody at h
  repeat' split at h
  all_goals first
    | exact Except.noConfusion h
    | (obtain rfl := (Except.ok.inj h).symm
       first
         | rfl
         | apply caracteres_procesarImagen
         | apply caracteres_sinConversion)

theorem caracteres_outerHandler (env : ProcEnv) (fp : String)
    (tb : Except (String × List String) ProcResult)
    (h : ∀ r, tb = .ok r → r.caracteres = r.texto.length) :
    (outerHandler env fp tb).caracteres = (outerHandler env fp tb).texto.length := by
  rcases tb with ⟨e, w⟩ | r
  · rcases hp : env.pdfCompleto fp with e2 | d <;>
      simp [outerHandler, hp, mkPdfResult]
  · exact h r rfl

theorem caracteres_procesar_archivo (env : ProcEnv) (fp extension : String) :
    (procesar_archivo env fp extension).caracteres
      = (procesar_archivo env fp extension).texto.length := by
  unfold procesar_archivo
  exact caracteres_outerHandler env fp _ (fun r hr => caracteres_tryBody hr)

theorem procesarImagen_fail {env : ProcEnv}
    (hpdf : ∀ p, ∃ e, env.pdfCompleto p = .error e)
    (hocr : ∃ e, env.imageOcr = .error e) (extL : String) (w : List String) :
    ∃ e2, procesarImagen env extL w =
      { texto := "", caracteres := 0, paginas := 1, method := "image_failed",
        warnings := w ++ ["No se pudo procesar imagen: " ++ e2] } := by
  obtain ⟨eo, ho⟩ := hocr
  refine ⟨eo, ?_⟩
  unfold procesarImagen
  rcases hc : env.convertir with e | popt
  · simp [hc, ho]
  · rcases popt with _ | p
    · simp [hc, ho]
    · cases hex : env.pathExists p
      · simp [hc, hex, ho]
      · obtain ⟨ep, hp⟩ := hpdf p
        simp [hc, hex, hp, ho]

theorem ultimoRecurso_fail {env : ProcEnv}
    (hpdf : ∀ p, ∃ e, env.pdfCompleto p = .error e) (fp extL : String)
    (w2 : List String) :
    ∃ e2, ultimoRecurso env fp extL w2 =
      { texto := "", caracteres := 0, paginas := 0, method := "failed",
        warnings := w2 ++ ["No se pudo procesar archivo " ++ extL ++ ": " ++ e2] } := by
  obtain ⟨ep, hp⟩ := hpdf fp
  refine ⟨ep, ?_⟩
  unfold ultimoRecurso
  simp [hp]

theorem sinConversion_fail {env : ProcEnv}
    (hpdf : ∀ p, ∃ e, env.pdfCompleto p = .error e)
    (hext : env.extractDirect.1 = none) (fp extL : String) (w : List String) :
    FailResult (sinConversion env fp extL w) := by
  have hsc : sinConversion env fp extL w
      = ultimoRecurso env fp extL
          ((w ++ ["No se pudo convertir " ++ extL ++ " a PDF, intentando extracción directa"])
            ++ env.extractDirect.2) := by
    unfold sinConversion
    rw [hext]
  obtain ⟨e2, hur⟩ := ultimoRecurso_fail hpdf fp extL
    ((w ++ ["No se pudo convertir " ++ extL ++ " a PDF, intentando extracción directa"])
      ++ env.extractDirect.2)
  rw [hsc, hur]
  refine ⟨rfl, rfl, Or.inl rfl, ?_⟩
  exact ⟨"No se pudo procesar archivo " ++ extL ++ ": " ++ e2,
    List.mem_append_right _ (List.mem_singleton.mpr rfl), failWarn_archivo extL e2⟩

theorem tryBody_fail {env : ProcEnv} (h : allStrategiesFail env)
    (fp extL : String) (w : List String) :
    (∃ ew, tryBody env fp extL w = .error ew) ∨
      (∃ r, tryBody env fp extL w = .ok r ∧ FailResult r) := by
  obtain ⟨hpdf, hocr, hdir, hext⟩ := h
  unfold tryBody
  by_cases h1 : extL ∈ formatosImagen
  · rw [if_pos h1]
    obtain ⟨e2, heq⟩ := procesarImagen_fail hpdf hocr extL w
    refine Or.inr ⟨procesarImagen env extL w, rfl, ?_⟩
    rw [heq]
    refine ⟨rfl, rfl, Or.inr rfl, ?_⟩
    exact ⟨"No se pudo procesar imagen: " ++ e2,
      List.mem_append_right _ (List.mem_singleton.mpr rfl),
      failWarn_noSePudo _ e2 (by decide)⟩
  · rw [if_neg h1]
    by_cases h2 : extL ∈ formatosDirectos
    · rw [if_pos h2]
      by_cases h3 : extL = "pdf"
      · obtain ⟨ep, hp⟩ := hpdf fp
        rw [if_pos h3, hp]
        exact Or.inl ⟨(ep, w), rfl⟩
      · obtain ⟨ed, hd⟩ := hdir
        rw [if_neg h3, hd]
        rcases hc : env.convertir with e | popt
        · exact Or.inl ⟨(e, w), rfl⟩
        · rcases popt with _ | p
          · exact Or.inl ⟨(ed, w), rfl⟩
          · cases hex : env.pathExists p
            · simp only [hex, Bool.false_eq_true, if_false]
              exact Or.inl ⟨(ed, w), rfl⟩
            · obtain ⟨ep, hp⟩ := hpdf p
              simp only [hex, if_true, hp]
              exact Or.inl ⟨(ep, w), rfl⟩
    · rw [if_neg h2]
      rcases hc : env.convertir with e | popt
      · exact Or.inl ⟨(e, w), rfl⟩
      · rcases popt with _ | p
        · exact Or.inr ⟨sinConversion env fp extL w, rfl,
            sinConversion_fail hpdf hext fp extL w⟩
        · cases hex : env.pathExists p
          · simp only [hex, Bool.false_eq_true, if_false]
            exact Or.inr ⟨sinConversion env fp extL w, rfl,
              sinConversion_fail hpdf hext fp extL w⟩
          · obtain ⟨ep, hp⟩ := hpdf p
            simp only [hex, if_true, hp]
            exact Or.inl ⟨(ep, w), rfl⟩

theorem outerHandler_fail {env : ProcEnv} {fp : String}
    (hpdf : ∀ p, ∃ e, env.pdfCompleto p = .error e)
    (tb : Except (String × List String) ProcResult)
    (htb : (∃ ew, tb = .error ew) ∨ (∃ r, tb = .ok r ∧ FailResult r)) :
    FailResult (outerHandler env fp tb) := by
  rcases htb with ⟨⟨e, w⟩, hew⟩ | ⟨r, hr, hfail⟩
  · rw [hew]
    obtain ⟨ep, hp⟩ := hpdf fp
    unfold outerHandler
    rw [hp]
    refine ⟨rfl, rfl, Or.inl rfl, ?_⟩
    refine ⟨"Error procesando archivo: " ++ e, ?_, failWarn_errorProcesando e⟩
    exact List.mem_append_right _ (List.mem_cons_self _ _)
  · rw [hr]
    exact hfail

theorem procesar_archivo_fail {env : ProcEnv} (h : allStrategiesFail env)
    (fp extension : String) : FailResult (procesar_archivo env fp extension) := by
  unfold procesar_archivo
  exact outerHandler_fail h.1 _ (tryBody_fail h fp _ _)

/-! ### Evaluating `extract_clean_json` through the whitespace strip -/

theorem ws_not_open (c : Char) (h : pyWhitespace c = true) : (c == '[') = false := by
  simp only [pyWhitespace, Bool.or_eq_true, beq_iff_eq] at h
  rcases h with ((((h | h) | h) | h) | h) | h <;> subst h <;> decide

theorem ws_not_close (c : Char) (h : pyWhitespace c = true) : (c == ']') = false := by
  simp only [pyWhitespace, Bool.or_eq_true, beq_iff_eq] at h
  rcases h with ((((h | h) | h) | h) | h) | h <;> subst h <;> decide

theorem ws_not_bracket (c : Char) (h : pyWhitespace c = true) :
    isBracket c = false := by
  unfold isBracket
  rw [ws_not_open c h, ws_not_close c h]
  rfl

theorem extract_eval_some (text : List Char) (htext : ¬ text = []) (s₃ e₃ : Nat)
    (hf : pyFind (· == '[') (pyStripL (markersRemoved text)) = some s₃)
    (hr : pyRFind (· == ']') (pyStripL (markersRemoved text)) = some e₃) :
    extract_clean_json text
      = ((pyStripL (markersRemoved text)).drop s₃).take (e₃ + 1 - s₃) := by
  unfold extract_clean_json
  rw [if_neg htext]
  dsimp only
  rw [hf, hr]

theorem extract_eval_none (text : List Char) (htext : ¬ text = [])
    (h : pyFind (· == '[') (pyStripL (markersRemoved text)) = none ∨
      pyRFind (· == ']') (pyStripL (markersRemoved text)) = none) :
    extract_clean_json text = "[]".data := by
  unfold extract_clean_json
  rw [if_neg htext]
  dsimp only
  rcases h with h | h
  · rw [h]
  · rcases hf : pyFind (· == '[') (pyStripL (markersRemoved text)) with _ | s
    · rfl
    · rw [h]

theorem slice_decomp (W core V : List Char) (s₃ e₃ : Nat)
    (hs₃ : s₃ < core.length) (he₃ : e₃ < core.length) :
    ((W ++ (core ++ V)).drop (s₃ + W.length)).take (e₃ + W.length + 1 - (s₃ + W.length))
      = (core.drop s₃).take (e₃ + 1 - s₃) := by
  have h1 : s₃ + W.length = W.length + s₃ := Nat.add_comm _ _
  rw [h1, List.drop_append, List.drop_append_of_le_length (Nat.le_of_lt hs₃)]
  have h2 : e₃ + W.length + 1 - (W.length + s₃) = e₃ + 1 - s₃ := by omega
  rw [h2]
  exact List.take_append_of_le_length (by rw [List.length_drop]; omega)

/-! # The claims -/

/-- C4: for every response text, `extract_clean_json` first removes the
fence markers; if the remaining text lacks a `'['` or lacks a `']'` it
returns the empty array `"[]"`; otherwise it returns exactly the
substring of the remaining text from the first `'['` to the last `']'`
inclusive (the Python slice `text[start:end+1]`).  The whitespace strip
the code also applies moves indices but never changes that slice. -/
theorem c4_extract_clean_json_spec (text : List Char) :
    ((pyFind (· == '[') (markersRemoved text) = none ∨
        pyRFind (· == ']') (markersRemoved text) = none) →
      extract_clean_json text = "[]".data) ∧
    (∀ s e, pyFind (· == '[') (markersRemoved text) = some s →
      pyRFind (· == ']') (markersRemoved text) = some e →
      extract_clean_json text
        = ((markersRemoved text).drop s).take (e + 1 - s)) := by
  obtain ⟨W, V, hdec, hW, hV⟩ := pyStripL_decomp (markersRemoved text)
  have hWo : ∀ c ∈ W, (c == '[') = false := fun c hc => ws_not_open c (hW c hc)
  have hWc : ∀ c ∈ W, (c == ']') = false := fun c hc => ws_not_close c (hW c hc)
  have hVo : ∀ c ∈ V, (c == '[') = false := fun c hc => ws_not_open c (hV c hc)
  have hVc : ∀ c ∈ V, (c == ']') = false := fun c hc => ws_not_close c (hV c hc)
  have hdec' : markersRemoved text
      = W ++ (pyStripL (markersRemoved text) ++ V) := by
    rw [← List.append_assoc]
    exact hdec
  have eqF : pyFind (· == '[') (markersRemoved text)
      = (pyFind (· == '[') (pyStripL (markersRemoved text))).map (· + W.length) := by
    conv_lhs => rw [hdec']
    rw [pyFind_append_left _ _ _ hWo, pyFind_append_right _ _ _ hVo]
  have eqR : pyRFind (· == ']') (markersRemoved text)
      = (pyRFind (· == ']') (pyStripL (markersRemoved text))).map (· + W.length) := by
    conv_lhs => rw [hdec']
    rw [pyRFind_append_left _ _ _ hWc, pyRFind_append_right _ _ _ hVc]
  constructor
  · intro hnone
    by_cases htext : text = []
    · unfold extract_clean_json
      rw [if_pos htext]
    · refine extract_eval_none text htext ?_
      rcases hnone with hn | hn
      · rw [eqF] at hn
        left
        rcases hfc : pyFind (· == '[') (pyStripL (markersRemoved text)) with _ | v
        · rfl
        · rw [hfc] at hn
          exact Option.noConfusion hn
      · rw [eqR] at hn
        right
        rcases hrc : pyRFind (· == ']') (pyStripL (markersRemoved text)) with _ | v
        · rfl
        · rw [hrc] at hn
          exact Option.noConfusion hn
  · intro s e hs he
    have htext : ¬ text = [] := by
      intro h
      rw [h] at hs
      rw [show markersRemoved ([] : List Char) = [] from rfl] at hs
      exact Option.noConfusion hs
    rw [eqF] at hs
    rw [eqR] at he
    rcases hf : pyFind (· == '[') (pyStripL (markersRemoved text)) with _ | s₃
    · rw [hf] at hs
      exact absurd hs (by simp)
    rcases hr : pyRFind (· == ']') (pyStripL (markersRemoved text)) with _ | e₃
    · rw [hr] at he
      exact absurd he (by simp)
    rw [hf] at hs
    rw [hr] at he
    simp only [Option.map_some', Option.some.injEq] at hs he
    subst hs
    subst he
    rw [extract_eval_some text htext s₃ e₃ hf hr]
    have hlen1 : s₃ < (pyStripL (markersRemoved text)).length :=
      pyFind_lt_length _ _ _ hf
    have hlen2 : e₃ < (pyStripL (markersRemoved text)).length :=
      pyRFind_lt_length _ _ _ hr
    conv_rhs => rw [hdec']
    exact (slice_decomp W (pyStripL (markersRemoved text)) V s₃ e₃ hlen1 hlen2).symm

/-- C4 witness: a fenced response with surrounding prose slices to the
bracketed array of the marker-free text. -/
theorem c4_witness :
    pyFind (· == '[') (markersRemoved "x```json[1, 2]```y".data) = some 1 ∧
    pyRFind (· == ']') (markersRemoved "x```json[1, 2]```y".data) = some 6 ∧
    extract_clean_json "x```json[1, 2]```y".data
      = ((markersRemoved "x```json[1, 2]```y".data).drop 1).take (6 + 1 - 1) :=
  ⟨by decide, by decide,
    (c4_extract_clean_json_spec "x```json[1, 2]```y".data).2 1 6
      (by decide) (by decide)⟩

/-- C10: when the last `']'` of the input comes strictly before the
first `'['`, `extract_clean_json` returns the empty string (the Python
slice with `end + 1 ≤ start`), not `"[]"` and not a bracketed slice. -/
theorem c10_reversed_brackets (text : List Char) (s e : Nat)
    (hs : pyFind (· == '[') text = some s)
    (he : pyRFind (· == ']') text = some e) (hlt : e < s) :
    extract_clean_json text = [] := by
  have hnb : ¬ hasOpenClose text := by
    intro hb
    obtain ⟨s', e', hs', he', hlt'⟩ := (hasOpenClose_iff_indices text).mp hb
    rw [hs] at hs'
    rw [he] at he'
    obtain rfl := Option.some.inj hs'
    obtain rfl := Option.some.inj he'
    omega
  obtain ⟨co, hgo, hpo⟩ := pyFind_get _ text s hs
  obtain ⟨cc, hgc, hpc⟩ := pyRFind_get _ text e he
  have hmo : '[' ∈ text := by
    have := List.get?_mem hgo
    rwa [show co = '[' from by simpa using hpo] at this
  have hmc : ']' ∈ text := by
    have := List.get?_mem hgc
    rwa [show cc = ']' from by simpa using hpc] at this
  have hfilter : (pyStripL (markersRemoved text)).filter isBracket
      = text.filter isBracket := by
    rw [filter_pyStripL _ ws_not_bracket, filter_markersRemoved]
  have hnb' : ¬ hasOpenClose (pyStripL (markersRemoved text)) := by
    intro hb
    exact hnb ((hasOpenClose_filter text).mpr
      (hfilter ▸ (hasOpenClose_filter (pyStripL (markersRemoved text))).mp hb))
  have hmo' : '[' ∈ pyStripL (markersRemoved text) := by
    have h1 : '[' ∈ text.filter isBracket :=
      List.mem_filter.mpr ⟨hmo, by decide⟩
    rw [← hfilter] at h1
    exact (List.mem_filter.mp h1).1
  have hmc' : ']' ∈ pyStripL (markersRemoved text) := by
    have h1 : ']' ∈ text.filter isBracket :=
      List.mem_filter.mpr ⟨hmc, by decide⟩
    rw [← hfilter] at h1
    exact (List.mem_filter.mp h1).1
  have hfs : ∃ s₃, pyFind (· == '[') (pyStripL (markersRemoved text)) = some s₃ := by
    have := (mem_iff_pyFind_isSome (· == '[') (pyStripL (markersRemoved text))).mp
      ⟨'[', hmo', by decide⟩
    exact Option.isSome_iff_exists.mp this
  have hrs : ∃ e₃, pyRFind (· == ']') (pyStripL (markersRemoved text)) = some e₃ := by
    have := (mem_iff_pyRFind_isSome (· == ']') (pyStripL (markersRemoved text))).mp
      ⟨']', hmc', by decide⟩
    exact Option.isSome_iff_exists.mp this
  obtain ⟨s₃, hf⟩ := hfs
  obtain ⟨e₃, hr⟩ := hrs
  have hne : s₃ ≠ e₃ := by
    intro hcontra
    obtain ⟨x, hx1, hx2⟩ := pyFind_get _ _ _ hf
    obtain ⟨y, hy1, hy2⟩ := pyRFind_get _ _ _ hr
    rw [hcontra] at hx1
    rw [hx1] at hy1
    obtain rfl := Option.some.inj hy1
    have hxo : x = '[' := by simpa using hx2
    have hxc : x = ']' := by simpa using hy2
    rw [hxo] at hxc
    exact absurd hxc (by decide)
  have hgt : e₃ < s₃ := by
    rcases Nat.lt_trichotomy s₃ e₃ with h | h | h
    · exact absurd ((hasOpenClose_iff_indices _).mpr ⟨s₃, e₃, hf, hr, h⟩) hnb'
    · exact absurd h hne
    · exact h
  have htext : ¬ text = [] := by
    intro h
    rw [h] at hmo
    exact absurd hmo (List.not_mem_nil _)
  rw [extract_eval_some text htext s₃ e₃ hf hr,
    show e₃ + 1 - s₃ = 0 from by omega, List.take_zero]

/-- C10 witness: `"]x["` has both brackets with the `']'` first and is
mapped to the empty string. -/
theorem c10_witness :
    pyFind (· == '[') "]x[".data = some 2 ∧
    pyRFind (· == ']') "]x[".data = some 0 ∧
    extract_clean_json "]x[".data = [] :=
  ⟨by decide, by decide,
    c10_reversed_brackets "]x[".data 2 0 (by decide) (by decide) (by decide)⟩

/-- C5: `fix_json` removes the characters outside the basic multilingual
plane and appends exactly `count('[') - count(']')` closing brackets when
the open-bracket count exceeds the close-bracket count, leaving the
brackets untouched otherwise; so when the input has at least as many
`']'` as `'['`, the output never has more `'['` than `']'`. -/
theorem c5_fix_json_spec (s : List Char) :
    (s.count '[' ≤ s.count ']' →
      fix_json s = s.filter (fun c => c.toNat < 0x10000)) ∧
    (s.count ']' < s.count '[' →
      fix_json s = s.filter (fun c => c.toNat < 0x10000)
        ++ List.replicate (s.count '[' - s.count ']') ']') ∧
    (s.count '[' ≤ s.count ']' →
      (fix_json s).count '[' ≤ (fix_json s).count ']') := by
  have h1 : (s.filter (fun c => c.toNat < 0x10000)).count '[' = s.count '[' :=
    List.count_filter (by decide)
  have h2 : (s.filter (fun c => c.toNat < 0x10000)).count ']' = s.count ']' :=
    List.count_filter (by decide)
  refine ⟨?_, ?_, ?_⟩
  · intro hle
    unfold fix_json
    rw [if_neg (by rw [h1, h2]; omega)]
  · intro hlt
    unfold fix_json
    rw [if_pos (by rw [h1, h2]; omega), h1, h2]
  · intro hle
    unfold fix_json
    rw [if_neg (by rw [h1, h2]; omega)]
    rw [h1, h2]
    exact hle

/-- C5 witness: `"[[]"` has one unmatched `'['` and gets exactly one
`']'` appended. -/
theorem c5_witness :
    fix_json "[[]".data
      = "[[]".data.filter (fun c => c.toNat < 0x10000)
        ++ List.replicate ("[[]".data.count '[' - "[[]".data.count ']') ']' :=
  (c5_fix_json_spec "[[]".data).2.1 (by decide)

/-- C6: a raw question carrying `pregunta`/`opciones`/`respuesta_correcta`
normalizes to exactly the same result as one carrying
`texto`/`alternativas`/`correcta` with the same values — for all values,
including falsy ones. -/
theorem c6_normalize_aliasing (t : String) (a : List String) (c : String) :
    normalize_question ⟨none, some t, none, some a, none, some c⟩
      = normalize_question ⟨some t, none, some a, none, some c, none⟩ := by
  unfold normalize_question resolveTexto resolveAlternativas resolveCorrecta
  by_cases ht : t = "" <;> by_cases ha : a = [] <;> by_cases hc : c = "" <;>
    simp [truthyStr, truthyList, ht, ha, hc, Option.orElse]

/-- C7: `normalize_question` returns `None` exactly when one of the three
resolved fields (question text, alternatives list, answer letter) is
missing or empty, so such questions are silently excluded; the function
is total on raw question records (no exception path exists in the
embedding). -/
theorem c7_normalize_drops (raw : RawQuestion) :
    normalize_question raw = none ↔
      (resolveTexto raw = "" ∨ resolveAlternativas raw = [] ∨
        resolveCorrecta raw = "") :=
  normalize_question_eq_none raw

/-- C7 witness: a record with a text and an answer but no alternatives is
dropped. -/
theorem c7_witness :
    normalize_question ⟨some "Q", none, none, none, some "a", none⟩ = none :=
  (c7_normalize_drops ⟨some "Q", none, none, none, some "a", none⟩).mpr
    (Or.inr (Or.inl (by decide)))

/-- C8: `call_gemini` raises exactly when the `GEMINI_API_KEY` credential
is falsy; with the credential set it never raises, its result depends on
at most the first `retries` attempts (`retries` defaults to 2 in the
source), and when every one of those attempts fails it returns `None`. -/
theorem c8_call_gemini_contract (apiKey : Option String)
    (attempts g : Nat → GeminiAttempt) (retries : Nat) :
    ((∃ e, call_gemini apiKey attempts retries = .error e) ↔
      truthyStr apiKey = none) ∧
    ((∀ i, i < retries → attempts i = g i) →
      call_gemini apiKey attempts retries = call_gemini apiKey g retries) ∧
    (truthyStr apiKey ≠ none →
      (∀ i, i < retries → attemptText (attempts i) = none) →
      call_gemini apiKey attempts retries = .ok none) := by
  refine ⟨⟨?_, ?_⟩, ?_, ?_⟩
  · rintro ⟨e, he⟩
    by_cases h : truthyStr apiKey = none
    · exact h
    · unfold call_gemini at he
      rw [if_neg h] at he
      exact Except.noConfusion he
  · intro h
    refine ⟨"GEMINI_API_KEY no configurada", ?_⟩
    unfold call_gemini
    rw [if_pos h]
  · intro h
    unfold call_gemini
    by_cases hk : truthyStr apiKey = none
    · rw [if_pos hk, if_pos hk]
    · rw [if_neg hk, if_neg hk]
      exact congrArg Except.ok
        (callLoop_congr attempts g retries 0 (fun j hj => by simpa using h j hj))
  · intro hk hfail
    unfold call_gemini
    rw [if_neg hk]
    exact congrArg Except.ok
      (callLoop_all_fail attempts retries 0 (fun j hj => by simpa using hfail j hj))

/-- C8 witness: with a key configured and both attempts hitting a
transport error, the call returns `None` instead of raising. -/
theorem c8_witness :
    call_gemini (some "key") (fun _ => GeminiAttempt.transportError "down") 2
      = .ok none :=
  (c8_call_gemini_contract (some "key") (fun _ => GeminiAttempt.transportError "down")
      (fun _ => GeminiAttempt.transportError "down") 2).2.2
    (by decide) (fun i _ => rfl)

/-- C9: when no alternative's lower-cased text starts with `correcta`,
`shuffle_alternatives` still returns the permuted alternatives but sets
`correcta` to Python `None` — it neither raises nor picks a letter. -/
theorem c9_shuffle_no_match (q : NormQuestion) (shuffled : List String)
    (hperm : shuffled.Perm q.alternativas)
    (h : ∀ opt ∈ q.alternativas,
      q.correcta.data.isPrefixOf (pyLower opt).data = false) :
    (shuffle_alternatives q shuffled).correcta = none ∧
      (shuffle_alternatives q shuffled).alternativas.Perm q.alternativas := by
  have hfind : q.alternativas.find?
      (fun opt => q.correcta.data.isPrefixOf (pyLower opt).data) = none :=
    List.find?_eq_none.mpr (fun x hx => by simp [h x hx])
  constructor
  · have := foldl_letra_none shuffled
    simpa [shuffle_alternatives, hfind] using this
  · simpa [shuffle_alternatives] using hperm

/-- C9 witness: `correcta = "z"` matches no alternative; the result keeps
the permutation and reports `None`. -/
theorem c9_witness :
    (shuffle_alternatives ⟨"t", ["x) a", "y) b"], "z"⟩
        ["y) b", "x) a"]).correcta = none ∧
      (shuffle_alternatives ⟨"t", ["x) a", "y) b"], "z"⟩
        ["y) b", "x) a"]).alternativas.Perm ["x) a", "y) b"] :=
  c9_shuffle_no_match ⟨"t", ["x) a", "y) b"], "z"⟩ ["y) b", "x) a"]
    (by decide) (by decide)

/-- C1: the claim asks that the alternative at the index named by the
post-shuffle `correcta` (a→0 … d→3) carry the pre-shuffle correct text.
The code instead recomputes the letter from the matched text itself —
whose label travelled with it — so `correcta` stays `"c"` while the
correct text `"c) y"` now sits at index 0, and index 2 holds `"d) z"`:
evaluating the code at the failing input exhibits the divergence. -/
theorem c1_shuffle_misindexes :
    (shuffle_alternatives ⟨"Q?", ["a) w", "b) x", "c) y", "d) z"], "c"⟩
        ["c) y", "a) w", "d) z", "b) x"]).correcta = some "c" ∧
    ["a) w", "b) x", "c) y", "d) z"].getD 2 "" = "c) y" ∧
    (shuffle_alternatives ⟨"Q?", ["a) w", "b) x", "c) y", "d) z"], "c"⟩
        ["c) y", "a) w", "d) z", "b) x"]).alternativas.getD 2 "" = "d) z" ∧
    ("d) z" : String) ≠ "c) y" := by
  refine ⟨by decide, by decide, by decide, by decide⟩

/-- C3 counterexample: a syntactically valid model reply whose single
question has whitespace-only text, one alternative and an unfindable
answer letter passes normalization and shuffling unchecked, so the
returned question violates every part of the normalized shape. -/
theorem c3_counterexample :
    generar_preguntas_por_bloque (some cRaw) cParse cShuf
        = [⟨"", ["x"], none⟩] ∧
      ¬ NormalizedShape ⟨"", ["x"], none⟩ :=
  ⟨by decide, by decide⟩

/-- C3 (amended): every question returned by
`generar_preguntas_por_bloque` has a non-empty `alternativas` list (the
shuffle of the raw list), and `correcta` is either `None` or the
lower-cased pre-`')'` token of one of its own alternatives; the full
normalized shape (non-empty `texto`, exactly 4 labelled alternatives,
`correcta ∈ {a,b,c,d}`) is not enforced by the code. -/
theorem c3_generar_shape (g : Option String)
    (parse : String → Option (List RawQuestion))
    (shuf : Nat → List String → List String)
    (hshuf : ∀ i l, (shuf i l).Perm l) :
    ∀ q ∈ generar_preguntas_por_bloque g parse shuf,
      q.alternativas ≠ [] ∧
      (q.correcta = none ∨
        ∃ a ∈ q.alternativas, q.correcta = some (pyLower (pySplitHead a))) := by
  intro q hq
  unfold generar_preguntas_por_bloque at hq
  rcases g with _ | raw
  · simp at hq
  · dsimp only at hq
    by_cases hr : raw = ""
    · rw [if_pos hr] at hq
      simp at hq
    · rw [if_neg hr] at hq
      rcases hp : parse (String.mk (fix_json (extract_clean_json raw.data)))
          with _ | arr
      · rw [hp] at hq
        simp at hq
      · rw [hp] at hq
        rw [List.mem_filterMap] at hq
        obtain ⟨⟨i, rq⟩, hmem, heq⟩ := hq
        rw [Option.map_eq_some'] at heq
        obtain ⟨qn, hqn, hqeq⟩ := heq
        obtain ⟨-, halts, -, hne⟩ := normalize_question_some hqn
        have hqa : qn.alternativas ≠ [] := by rw [halts]; exact hne
        subst hqeq
        constructor
        · show shuf i qn.alternativas ≠ []
          intro hnil
          have hlen := (hshuf i qn.alternativas).length_eq
          rw [hnil] at hlen
          exact hqa (List.length_eq_zero.mp hlen.symm)
        · have hcases := foldl_letra_cases (shuf i qn.alternativas)
            (qn.alternativas.find?
              (fun opt => qn.correcta.data.isPrefixOf (pyLower opt).data)) none
          rcases hcases with h1 | ⟨opt, hopt, h2⟩
          · exact Or.inl (by simpa [shuffle_alternatives] using h1)
          · refine Or.inr ⟨opt, ?_, ?_⟩
            · simpa [shuffle_alternatives] using hopt
            · simpa [shuffle_alternatives] using h2

/-- C3 witness: the amended statement applied to the concrete `cRaw`
run and its single returned question. -/
theorem c3_witness :
    (⟨"", ["x"], none⟩ : ShuffledQuestion).alternativas ≠ [] ∧
      ((⟨"", ["x"], none⟩ : ShuffledQuestion).correcta = none ∨
        ∃ a ∈ (⟨"", ["x"], none⟩ : ShuffledQuestion).alternativas,
          (⟨"", ["x"], none⟩ : ShuffledQuestion).correcta
            = some (pyLower (pySplitHead a))) :=
  c3_generar_shape (some cRaw) cParse cShuf (fun i l => List.Perm.refl l)
    ⟨"", ["x"], none⟩ (by decide)

/-- C2 counterexample: with every strategy failing on an image file, the
code returns method `"image_failed"` — not `"none"` and not `"error"` as
the claim states. -/
theorem c2_counterexample :
    allStrategiesFail envAllFail ∧
    (procesar_archivo envAllFail "f" "png").texto = "" ∧
    (procesar_archivo envAllFail "f" "png").method = "image_failed" ∧
    (procesar_archivo envAllFail "f" "png").method ≠ "none" ∧
    (procesar_archivo envAllFail "f" "png").method ≠ "error" :=
  ⟨⟨fun p => ⟨"no pdf library", rfl⟩, ⟨"no ocr", rfl⟩, ⟨"no reader", rfl⟩, rfl⟩,
    by decide, by decide, by decide, by decide⟩

/-- C2 (amended): `procesar_archivo` always returns the five-keyed
structure with `caracteres = len(texto)` and never raises (it is total);
when every strategy has failed the text is empty and the method is
`"failed"` — or `"image_failed"` on the image branch — with a warning
reporting that the file could not be processed. -/
theorem c2_procesar_archivo_contract (env : ProcEnv) (fp extension : String) :
    (procesar_archivo env fp extension).caracteres
        = (procesar_archivo env fp extension).texto.length ∧
    (allStrategiesFail env →
      (procesar_archivo env fp extension).texto = "" ∧
      ((procesar_archivo env fp extension).method = "failed" ∨
        (procesar_archivo env fp extension).method = "image_failed") ∧
      ∃ w ∈ (procesar_archivo env fp extension).warnings, failWarn w) :=
  ⟨caracteres_procesar_archivo env fp extension,
    fun h => by
      obtain ⟨h1, h2, h3, h4⟩ := procesar_archivo_fail h fp extension
      exact ⟨h1, h3, h4⟩⟩

/-- C2 witness: the amended statement applied to the all-failing
environment on a txt file. -/
theorem c2_witness :
    (procesar_archivo envAllFail "g" "txt").texto = "" ∧
      ((procesar_archivo envAllFail "g" "txt").method = "failed" ∨
        (procesar_archivo envAllFail "g" "txt").method = "image_failed") ∧
      ∃ w ∈ (procesar_archivo envAllFail "g" "txt").warnings, failWarn w :=
  (c2_procesar_archivo_contract envAllFail "g" "txt").2
    ⟨fun p => ⟨"no pdf library", rfl⟩, ⟨"no ocr", rfl⟩, ⟨"no reader", rfl⟩, rfl⟩

end ExamenBackend
